import Mathlib

/-!
# Pins debugging for DUE (`Marlin/src/HAL/DUE/pinsDebug.h`)

A shallow embedding of the pin-state resolution macros and functions of
`pinsDebug.h`, followed by theorems about them.

Memory is explicit: the capability table `g_APinDescription`, the status
array `g_pinStatus`, the PIO output-status registers and the PWM duty
registers are fields of `Machine`.  Every function of the header is a
computation in `Exec`, which threads the machine state, records the reads it
performs in order, and stops with result `none` at the first array read that
is out of bounds (undefined behaviour in C).

Declarations the header uses but does not contain (`pin_t`, `PINS_COUNT`,
`NUM_ANALOG_INPUTS`, `analogInputToDigitalPin`, `PIN_ATTR_PWM`) are fields of
`Board`.
-/

namespace PinsDebug

/-! ## Machine integers -/

/-- Conversion of the integer `x` to a signed two's-complement type of `bits`
bits: the value congruent to `x` modulo `2 ^ bits` in
`[-2 ^ (bits - 1), 2 ^ (bits - 1))`. -/
def wrapSigned (bits : Nat) (x : Int) : Int :=
  (x + 2 ^ (bits - 1)) % 2 ^ bits - 2 ^ (bits - 1)

/-- The conversion `int(x)` of the header (32-bit `int` on the SAM3X). -/
def toInt32 (x : Int) : Int := wrapSigned 32 x

/-- The integer `x` is a value of the signed type of `bits` bits. -/
def fitsIn (bits : Nat) (x : Int) : Prop :=
  -(2 ^ (bits - 1)) ≤ x ∧ x < 2 ^ (bits - 1)

instance (bits : Nat) (x : Int) : Decidable (fitsIn bits x) := by
  unfold fitsIn; infer_instance

/-! ## Board constants (declared outside the header) -/

/-- Compile-time declarations of the board that the header relies on. -/
structure Board where
  /-- Width in bits of the signed integer type `pin_t`. -/
  pinBits : Nat
  /-- Value of `PINS_COUNT`. -/
  PINS_COUNT : Nat
  /-- Value of `NUM_ANALOG_INPUTS`. -/
  NUM_ANALOG_INPUTS : Int
  /-- The variant macro `analogInputToDigitalPin(p)`. -/
  analogInputToDigitalPin : Int → Int
  /-- Value of the attribute flag `PIN_ATTR_PWM`. -/
  PIN_ATTR_PWM : Nat

/-- The conversion `pin_t(x)`. -/
def pin_t (B : Board) (x : Int) : Int := wrapSigned B.pinBits x

/-- Line 77: `#define NUMBER_PINS_TOTAL PINS_COUNT`. -/
def NUMBER_PINS_TOTAL (B : Board) : Nat := B.PINS_COUNT

/-- Line 90: `#define MULTI_NAME_PAD 14`. -/
def MULTI_NAME_PAD : Nat := 14

/-! ## Status definitions (lines 50-56) -/

def PIN_STATUS_DIGITAL_INPUT_PULLUP : Nat := 0x01
def PIN_STATUS_DIGITAL_INPUT : Nat := 0x02
def PIN_STATUS_DIGITAL_OUTPUT : Nat := 0x03
def PIN_STATUS_ANALOG : Nat := 0x04
def PIN_STATUS_PWM : Nat := 0x05
def PIN_STATUS_TIMER : Nat := 0x06

/-! ## Memory -/

/-- The fields of a `g_APinDescription` entry that the header reads. -/
structure PinDescription where
  /-- Handle of the PIO controller of the pin (`Pio* pPort`). -/
  pPort : Nat
  /-- Bit mask of the pin inside its controller (`uint32_t ulPin`). -/
  ulPin : Nat
  /-- Attribute flags (`uint32_t ulPinAttribute`). -/
  ulPinAttribute : Nat
  /-- PWM channel of the pin (`ulPWMChannel`). -/
  ulPWMChannel : Nat
deriving DecidableEq, Repr

/-- One item written to the serial port by `SERIAL_ECHOPGM(label, value)`. -/
structure SerialItem where
  label : String
  value : Nat
deriving DecidableEq, Repr

/-- The memory the header works on. -/
structure Machine where
  /-- Capability table, one entry per pin. -/
  g_APinDescription : List PinDescription
  /-- Software status array, one `uint8_t` per pin. -/
  g_pinStatus : List Nat
  /-- Value of the register `PIO_OSR` of each PIO controller. -/
  PIO_OSR : Nat → Nat
  /-- Value of the register `PWM_CDTY` of each PWM channel. -/
  PWM_CDTY : Nat → Nat
  /-- What has been written to the serial port so far. -/
  serialOut : List SerialItem

/-- A memory read. -/
inductive Access where
  /-- Read of `g_APinDescription[idx]`. -/
  | pinDescription (idx : Int)
  /-- Read of `g_pinStatus[idx]`. -/
  | pinStatus (idx : Int)
  /-- Read of `port->PIO_OSR`. -/
  | pioOSR (port : Nat)
  /-- Read of `PWM_INTERFACE->PWM_CH_NUM[chan].PWM_CDTY`. -/
  | pwmCDTY (chan : Nat)
deriving DecidableEq, Repr

/-- Whether a read stays inside the object it addresses.  Register reads go
through handles stored in the capability table and are always inside. -/
def Access.inBounds (m : Machine) : Access → Bool
  | .pinDescription idx => decide (0 ≤ idx ∧ idx < (m.g_APinDescription.length : Int))
  | .pinStatus idx => decide (0 ≤ idx ∧ idx < (m.g_pinStatus.length : Int))
  | .pioOSR _ => true
  | .pwmCDTY _ => true

/-- Element `i` of the C array `xs`, `none` outside it. -/
def index {α : Type} (xs : List α) (i : Int) : Option α :=
  if 0 ≤ i then xs[i.toNat]? else none

/-! ## Computations -/

/-- What a computation leaves behind. -/
structure Outcome (α : Type) where
  /-- Machine state at the end. -/
  state : Machine
  /-- Reads performed, in order. -/
  reads : List Access
  /-- Value returned; `none` when a read was out of bounds. -/
  result : Option α

/-- A computation over the machine. -/
def Exec (α : Type) : Type := Machine → Outcome α

/-- Return a value without touching memory. -/
def Exec.pure {α : Type} (a : α) : Exec α :=
  fun m => { state := m, reads := [], result := some a }

/-- Sequencing: the second computation runs only when the first one returned. -/
def Exec.bind {α β : Type} (x : Exec α) (f : α → Exec β) : Exec β :=
  fun m =>
    let o := x m
    match o.result with
    | none => { state := o.state, reads := o.reads, result := none }
    | some a =>
      let o2 := f a o.state
      { state := o2.state, reads := o.reads ++ o2.reads, result := o2.result }

instance : Monad Exec where
  pure := Exec.pure
  bind := Exec.bind

/-- Read `g_APinDescription[i]`. -/
def readPinDescription (i : Int) : Exec PinDescription :=
  fun m => { state := m, reads := [.pinDescription i], result := index m.g_APinDescription i }

/-- Read `g_pinStatus[i]`. -/
def readPinStatus (i : Int) : Exec Nat :=
  fun m => { state := m, reads := [.pinStatus i], result := index m.g_pinStatus i }

/-- Read `port->PIO_OSR`. -/
def readPIO_OSR (port : Nat) : Exec Nat :=
  fun m => { state := m, reads := [.pioOSR port], result := some (m.PIO_OSR port) }

/-- Read `PWM_INTERFACE->PWM_CH_NUM[chan].PWM_CDTY`. -/
def readPWM_CDTY (chan : Nat) : Exec Nat :=
  fun m => { state := m, reads := [.pwmCDTY chan], result := some (m.PWM_CDTY chan) }

/-- `SERIAL_ECHOPGM(label, value)`: append to the serial output. -/
def SERIAL_ECHOPGM (label : String) (value : Nat) : Exec Unit :=
  fun m => { state := { m with serialOut := m.serialOut ++ [⟨label, value⟩] },
             reads := [], result := some () }

/-! ## The header's macros and functions -/

/-- Modelled from the spec: the range macro `WITHIN(N, L, H)` of Marlin's core
macros is not part of the header; the spec describes the analog range as
`first <= pinIndex <= last`, inclusive on both ends. -/
def WITHIN (N L H : Int) : Bool := decide (N ≥ L) && decide (N ≤ H)

/-- Line 85: `#define isValidPin(P) (P >= 0 && P < pin_t(NUMBER_PINS_TOTAL))`. -/
def isValidPin (B : Board) (P : Int) : Bool :=
  decide (P ≥ 0) && decide (P < pin_t B (NUMBER_PINS_TOTAL B))

/-- Line 86: `#define digitalPinToAnalogIndex(P) int(P - analogInputToDigitalPin(0))`. -/
def digitalPinToAnalogIndex (B : Board) (P : Int) : Int :=
  toInt32 (P - B.analogInputToDigitalPin 0)

/-- Line 87: `#define isAnalogPin(P) WITHIN(P, pin_t(analogInputToDigitalPin(0)),
pin_t(analogInputToDigitalPin(NUM_ANALOG_INPUTS - 1)))`. -/
def isAnalogPin (B : Board) (P : Int) : Bool :=
  WITHIN P (pin_t B (B.analogInputToDigitalPin 0))
    (pin_t B (B.analogInputToDigitalPin (B.NUM_ANALOG_INPUTS - 1)))

/-- Lines 88-89: `#define pwm_status(P) (((g_pinStatus[P] & 0xF) == PIN_STATUS_PWM) &&
((g_APinDescription[P].ulPinAttribute & PIN_ATTR_PWM) == PIN_ATTR_PWM))`.
The right operand of `&&` is evaluated only when the left one holds. -/
def pwm_status (B : Board) (P : Int) : Exec Bool := do
  let status ← readPinStatus P
  if status &&& 0xF = PIN_STATUS_PWM then
    let descr ← readPinDescription P
    pure (decide (descr.ulPinAttribute &&& B.PIN_ATTR_PWM = B.PIN_ATTR_PWM))
  else
    pure false

/-- Lines 92-99: `bool getValidPinMode(const pin_t pin)`, 1: output, 0: input.
`pin` is the value of the parameter, a `pin_t`: an argument `x` of a call
reaches the body as `pin_t(x)`, so `pin` ranges over the values of `pin_t`
(`fitsIn B.pinBits pin`). -/
def getValidPinMode (B : Board) (pin : Int) : Exec Bool := do
  let port := (← readPinDescription pin).pPort
  let mask := (← readPinDescription pin).ulPin
  let pin_status := ((← readPinStatus pin) &&& 0xF) % 256
  let driven ←
    if pin_status = 0 then do
      let osr ← readPIO_OSR port
      pure (decide (osr &&& mask ≠ 0))
    else
      pure false
  if driven then pure true
  else if pin_status = PIN_STATUS_DIGITAL_OUTPUT then pure true
  else pwm_status B pin

/-- Lines 101-106: `void printPinPWM(const int32_t pin)`.  `pin` is the value
of the parameter, an `int32_t` (`fitsIn 32 pin`). -/
def printPinPWM (B : Board) (pin : Int) : Exec Unit := do
  if (← pwm_status B pin) then
    let chan := (← readPinDescription pin).ulPWMChannel
    let duty ← readPWM_CDTY chan
    SERIAL_ECHOPGM "PWM = " duty

/-- Line 108: `void printPinPort(const pin_t) {}`. -/
def printPinPort (_pin : Int) : Exec Unit := pure ()

/-! ## The Due board -/

/-- The Arduino Due: pins 0-78 (comment d of the header), analog inputs
A0..A11 on pins 54..65 (pin table of the header); `pin_t` is `int8_t` in the
Due HAL and `PIN_ATTR_PWM` is bit 3 in the Arduino core. -/
def due : Board where
  pinBits := 8
  PINS_COUNT := 79
  NUM_ANALOG_INPUTS := 12
  analogInputToDigitalPin := fun p => if 0 ≤ p ∧ p < 12 then p + 54 else -1
  PIN_ATTR_PWM := 8

/-- A capability table entry shaped like the Due's: pins 6, 7, 8 and 9 are
PC24..PC21 with PWM channels 7..4 (table lines 120-123) and carry the PWM
attribute; the other pins sit on controller 0. -/
def sampleDescription (i : Nat) : PinDescription :=
  if 6 ≤ i ∧ i ≤ 9 then
    { pPort := 2, ulPin := 2 ^ (30 - i), ulPinAttribute := 0xC, ulPWMChannel := 13 - i }
  else
    { pPort := 0, ulPin := 2 ^ (i % 32), ulPinAttribute := 0x4, ulPWMChannel := 0 }

/-- A state of the Due with the given status array and the same value `osr`
in every `PIO_OSR` register. -/
def sampleMachine (status : List Nat) (osr : Nat) : Machine where
  g_APinDescription := (List.range 79).map sampleDescription
  g_pinStatus := status
  PIO_OSR := fun _ => osr
  PWM_CDTY := fun chan => 100 + chan
  serialOut := []

/-- Status array of the Due in which only pin `pin` has been given a status. -/
def statusWith (pin value : Nat) : List Nat := (List.replicate 79 0).set pin value

/-! ## Notions of the specification -/

/-- The software status tag held in a status byte: its low four bits. -/
def statusTag (s : Nat) : Nat := s % 16

/-- Some bit selected by `mask` is set in the output-status register value `osr`. -/
def outputEnableBitSet (osr mask : Nat) : Prop :=
  ∃ i, mask.testBit i = true ∧ osr.testBit i = true

/-- Every bit of the attribute flag `flag` is set in the attribute word `attr`. -/
def hasAttribute (attr flag : Nat) : Prop :=
  ∀ i, flag.testBit i = true → attr.testBit i = true

/-- The capability table and the status array both hold `NUMBER_PINS_TOTAL` entries. -/
def Machine.sized (B : Board) (m : Machine) : Prop :=
  m.g_APinDescription.length = NUMBER_PINS_TOTAL B ∧ m.g_pinStatus.length = NUMBER_PINS_TOTAL B

instance (B : Board) (m : Machine) : Decidable (m.sized B) := by
  unfold Machine.sized; infer_instance

/-- The machine `m2` holds the same capability table, status array, PIO
registers and PWM registers as `m`; only the serial output may differ. -/
def sameMemory (m m2 : Machine) : Prop :=
  m2.g_APinDescription = m.g_APinDescription ∧ m2.g_pinStatus = m.g_pinStatus ∧
  m2.PIO_OSR = m.PIO_OSR ∧ m2.PWM_CDTY = m.PWM_CDTY

/-- Two calls of `x` in immediate succession, returning both results. -/
def twice {α : Type} (x : Exec α) : Exec (α × α) := do
  let first ← x
  let second ← x
  pure (first, second)

/-- Every run of `x` ends in a state related by `R` to the state it started in. -/
def Exec.keeps {α : Type} (R : Machine → Machine → Prop) (x : Exec α) : Prop :=
  ∀ m, R m (x m).state

/-! ## Auxiliary lemmas -/

theorem bind_def {α β : Type} (x : Exec α) (f : α → Exec β) : (x >>= f) = Exec.bind x f := rfl

theorem pure_def {α : Type} (a : α) : (pure a : Exec α) = Exec.pure a := rfl

theorem land_0xF_mod (s : Nat) : (s &&& 0xF) % 256 = s &&& 0xF :=
  Nat.mod_eq_of_lt (lt_of_le_of_lt Nat.and_le_right (by norm_num))

theorem land_0xF (s : Nat) : s &&& 0xF = statusTag s := Nat.and_pow_two_sub_one_eq_mod s 4

theorem land_ne_zero_iff (a b : Nat) : a &&& b ≠ 0 ↔ outputEnableBitSet a b := by
  constructor
  · intro h
    obtain ⟨i, hi⟩ := Nat.ne_zero_implies_bit_true h
    rw [Nat.testBit_and, Bool.and_eq_true] at hi
    exact ⟨i, hi.2, hi.1⟩
  · rintro ⟨i, hb, ha⟩ h
    have hbit : (a &&& b).testBit i = true := by rw [Nat.testBit_and, ha, hb]; rfl
    rw [h, Nat.zero_testBit] at hbit
    exact Bool.false_ne_true hbit

theorem land_eq_right_iff (a b : Nat) : a &&& b = b ↔ hasAttribute a b := by
  constructor
  · intro h i hb
    have hbit : (a &&& b).testBit i = true := by rw [h]; exact hb
    rw [Nat.testBit_and, Bool.and_eq_true] at hbit
    exact hbit.1
  · intro h
    apply Nat.eq_of_testBit_eq
    intro i
    rw [Nat.testBit_and]
    cases hb : b.testBit i
    · simp
    · simp [h i hb]

theorem wrapSigned_of_fitsIn (bits : Nat) (x : Int) (hb : 0 < bits) (h : fitsIn bits x) :
    wrapSigned bits x = x := by
  obtain ⟨h1, h2⟩ := h
  have hp : (2 : Int) ^ bits = 2 * 2 ^ (bits - 1) := by
    obtain ⟨k, rfl⟩ : ∃ k, bits = k + 1 := ⟨bits - 1, by omega⟩
    simp [pow_succ]; ring
  unfold wrapSigned
  rw [hp, Int.emod_eq_of_lt (by linarith) (by linarith)]
  ring

theorem wrapSigned_le (bits : Nat) (x : Int) (hx : 0 ≤ x) : wrapSigned bits x ≤ x := by
  unfold wrapSigned
  have hpos : (0 : Int) ≤ 2 ^ (bits - 1) := by positivity
  have h2 : (0 : Int) < 2 ^ bits := by positivity
  have hq : 0 ≤ (x + 2 ^ (bits - 1)) / 2 ^ bits := Int.ediv_nonneg (by linarith) h2.le
  have hm := Int.emod_add_ediv (x + 2 ^ (bits - 1)) (2 ^ bits)
  nlinarith [mul_nonneg h2.le hq]

theorem index_eq_none {α : Type} (xs : List α) (i : Int)
    (h : i < 0 ∨ (xs.length : Int) ≤ i) : index xs i = none := by
  unfold index
  split
  · rw [List.getElem?_eq_none_iff]
    omega
  · rfl

theorem index_isSome {α : Type} (xs : List α) (i : Int)
    (h0 : 0 ≤ i) (h1 : i < (xs.length : Int)) : ∃ a, index xs i = some a := by
  unfold index
  rw [if_pos h0]
  have hlt : i.toNat < xs.length := by omega
  exact ⟨xs[i.toNat], List.getElem?_eq_getElem hlt⟩

theorem pwm_status_run (B : Board) (m : Machine) (P : Int) (d : PinDescription) (s : Nat)
    (hd : index m.g_APinDescription P = some d) (hs : index m.g_pinStatus P = some s) :
    pwm_status B P m =
      { state := m,
        reads := if s &&& 0xF = PIN_STATUS_PWM then [.pinStatus P, .pinDescription P]
          else [.pinStatus P],
        result := some (decide (s &&& 0xF = PIN_STATUS_PWM
          ∧ d.ulPinAttribute &&& B.PIN_ATTR_PWM = B.PIN_ATTR_PWM)) } := by
  by_cases h : s &&& 0xF = PIN_STATUS_PWM <;>
    simp [pwm_status, bind_def, pure_def, Exec.bind, Exec.pure, readPinStatus,
      readPinDescription, hd, hs, h]

theorem getValidPinMode_run (B : Board) (m : Machine) (pin : Int) (d : PinDescription) (s : Nat)
    (hd : index m.g_APinDescription pin = some d) (hs : index m.g_pinStatus pin = some s) :
    getValidPinMode B pin m =
      { state := m,
        reads := [.pinDescription pin, .pinDescription pin, .pinStatus pin]
          ++ (if s &&& 0xF = 0 then [.pioOSR d.pPort] else [])
          ++ (if (s &&& 0xF = 0 ∧ m.PIO_OSR d.pPort &&& d.ulPin ≠ 0)
                ∨ s &&& 0xF = PIN_STATUS_DIGITAL_OUTPUT then []
              else (pwm_status B pin m).reads),
        result := some (decide ((s &&& 0xF = 0 ∧ m.PIO_OSR d.pPort &&& d.ulPin ≠ 0)
          ∨ s &&& 0xF = PIN_STATUS_DIGITAL_OUTPUT
          ∨ (s &&& 0xF = PIN_STATUS_PWM
              ∧ d.ulPinAttribute &&& B.PIN_ATTR_PWM = B.PIN_ATTR_PWM))) } := by
  have hp := pwm_status_run B m pin d s hd hs
  by_cases h0 : s &&& 0xF = 0
  · by_cases hosr : m.PIO_OSR d.pPort &&& d.ulPin = 0
    · simp [getValidPinMode, bind_def, pure_def, Exec.bind, Exec.pure, readPinStatus,
        readPinDescription, readPIO_OSR, hd, hs, h0, hosr, hp, land_0xF_mod,
        PIN_STATUS_DIGITAL_OUTPUT, PIN_STATUS_PWM]
    · simp [getValidPinMode, bind_def, pure_def, Exec.bind, Exec.pure, readPinStatus,
        readPinDescription, readPIO_OSR, hd, hs, h0, hosr, land_0xF_mod]
  · by_cases h3 : s &&& 0xF = PIN_STATUS_DIGITAL_OUTPUT
    · simp [getValidPinMode, bind_def, pure_def, Exec.bind, Exec.pure, readPinStatus,
        readPinDescription, readPIO_OSR, hd, hs, h3, land_0xF_mod, PIN_STATUS_DIGITAL_OUTPUT]
    · simp [getValidPinMode, bind_def, pure_def, Exec.bind, Exec.pure, readPinStatus,
        readPinDescription, readPIO_OSR, hd, hs, h0, h3, hp, land_0xF_mod]

theorem getValidPinMode_run_outside (B : Board) (m : Machine) (pin : Int)
    (hd : index m.g_APinDescription pin = none) :
    getValidPinMode B pin m = { state := m, reads := [.pinDescription pin], result := none } := by
  simp [getValidPinMode, bind_def, Exec.bind, readPinDescription, hd]

theorem pwm_status_run_outside (B : Board) (m : Machine) (pin : Int)
    (hs : index m.g_pinStatus pin = none) :
    pwm_status B pin m = { state := m, reads := [.pinStatus pin], result := none } := by
  simp [pwm_status, bind_def, Exec.bind, readPinStatus, hs]

theorem printPinPWM_run_outside (B : Board) (m : Machine) (pin : Int)
    (hs : index m.g_pinStatus pin = none) :
    printPinPWM B pin m = { state := m, reads := [.pinStatus pin], result := none } := by
  simp [printPinPWM, bind_def, Exec.bind, pwm_status_run_outside B m pin hs]

/-! ## Mode resolution -/

/-- C1: for a pin that indexes both tables (capability record `d`, status byte
`s`), `getValidPinMode` returns a Boolean, and it is `true` (output) exactly
when the status tag is 0 and a register bit selected by the pin's mask is set
in `PIO_OSR`, or the tag is `PIN_STATUS_DIGITAL_OUTPUT`, or `pwm_status(pin)`
holds; otherwise it is `false` (input). -/
theorem getValidPinMode_output_iff (B : Board) (m : Machine) (pin : Int)
    (d : PinDescription) (s : Nat)
    (hd : index m.g_APinDescription pin = some d) (hs : index m.g_pinStatus pin = some s) :
    ∃ b, (getValidPinMode B pin m).result = some b ∧
      (b = true ↔
        (statusTag s = 0 ∧ outputEnableBitSet (m.PIO_OSR d.pPort) d.ulPin)
        ∨ statusTag s = PIN_STATUS_DIGITAL_OUTPUT
        ∨ (pwm_status B pin m).result = some true) := by
  refine ⟨_, by rw [getValidPinMode_run B m pin d s hd hs], ?_⟩
  rw [pwm_status_run B m pin d s hd hs]
  simp only [decide_eq_true_eq, Option.some.injEq, land_0xF, land_ne_zero_iff]

/-- Witness for C1: pin 6 of the Due, tagged PWM, all output-status bits clear. -/
theorem getValidPinMode_output_iff_witness :
    ∃ b, (getValidPinMode due 6 (sampleMachine (statusWith 6 5) 0)).result = some b ∧
      (b = true ↔
        (statusTag 5 = 0 ∧ outputEnableBitSet 0 (2 ^ 24))
        ∨ statusTag 5 = PIN_STATUS_DIGITAL_OUTPUT
        ∨ (pwm_status due 6 (sampleMachine (statusWith 6 5) 0)).result = some true) :=
  getValidPinMode_output_iff due (sampleMachine (statusWith 6 5) 0) 6
    (sampleDescription 6) 5 (by rfl) (by rfl)

/-- C2: for a pin that indexes both tables (capability record `d`, status byte
`s`), `pwm_status` returns a Boolean, which is `true` exactly when the status
tag is `PIN_STATUS_PWM` and the attribute word of `d` has the `PIN_ATTR_PWM`
flag set; in particular it is `false` whenever the record lacks the flag,
whatever the status byte is. -/
theorem pwm_status_iff (B : Board) (m : Machine) (pin : Int)
    (d : PinDescription) (s : Nat)
    (hd : index m.g_APinDescription pin = some d) (hs : index m.g_pinStatus pin = some s) :
    ∃ b, (pwm_status B pin m).result = some b ∧
      (b = true ↔
        statusTag s = PIN_STATUS_PWM ∧ hasAttribute d.ulPinAttribute B.PIN_ATTR_PWM) ∧
      (¬ hasAttribute d.ulPinAttribute B.PIN_ATTR_PWM → b = false) := by
  refine ⟨_, by rw [pwm_status_run B m pin d s hd hs], ?_, ?_⟩
  · simp only [decide_eq_true_eq, land_0xF, land_eq_right_iff]
  · intro hno
    simp only [land_eq_right_iff, hno, and_false, decide_False]

/-- Witness for C2: pin 7 of the Due (PWM-capable), tagged PWM. -/
theorem pwm_status_iff_witness :
    ∃ b, (pwm_status due 7 (sampleMachine (statusWith 7 5) 0)).result = some b ∧
      (b = true ↔ statusTag 5 = PIN_STATUS_PWM ∧ hasAttribute 0xC due.PIN_ATTR_PWM) ∧
      (¬ hasAttribute 0xC due.PIN_ATTR_PWM → b = false) :=
  pwm_status_iff due (sampleMachine (statusWith 7 5) 0) 7 (sampleDescription 7) 5
    (by rfl) (by rfl)

/-- C3: when the status tag of the pin is `PIN_STATUS_DIGITAL_OUTPUT`,
`getValidPinMode` returns `true` (output) whatever the output-status registers
hold, in particular when the pin's bit is clear in `PIO_OSR`. -/
theorem getValidPinMode_digital_output (B : Board) (m : Machine) (pin : Int)
    (d : PinDescription) (s : Nat)
    (hd : index m.g_APinDescription pin = some d) (hs : index m.g_pinStatus pin = some s)
    (htag : statusTag s = PIN_STATUS_DIGITAL_OUTPUT) (osr : Nat → Nat) :
    (getValidPinMode B pin { m with PIO_OSR := osr }).result = some true := by
  rw [getValidPinMode_run B { m with PIO_OSR := osr } pin d s hd hs]
  simp [land_0xF, htag]

/-- Witness for C3: pin 13 of the Due tagged digital output while every
output-status register reads zero. -/
theorem getValidPinMode_digital_output_witness :
    (getValidPinMode due 13
      { sampleMachine (statusWith 13 3) 0xFFFFFFFF with PIO_OSR := fun _ => 0 }).result
      = some true :=
  getValidPinMode_digital_output due (sampleMachine (statusWith 13 3) 0xFFFFFFFF) 13
    (sampleDescription 13) 3 (by rfl) (by rfl) (by rfl) (fun _ => 0)

/-- C4: when the status tag of the pin is 0 (unset), `getValidPinMode` returns
`true` (output) if a register bit selected by the pin's mask is set in
`PIO_OSR`, and returns `false` (input) if no such bit is set and `pwm_status`
is false for the pin. -/
theorem getValidPinMode_unset (B : Board) (m : Machine) (pin : Int)
    (d : PinDescription) (s : Nat)
    (hd : index m.g_APinDescription pin = some d) (hs : index m.g_pinStatus pin = some s)
    (htag : statusTag s = 0) :
    (outputEnableBitSet (m.PIO_OSR d.pPort) d.ulPin →
      (getValidPinMode B pin m).result = some true) ∧
    (¬ outputEnableBitSet (m.PIO_OSR d.pPort) d.ulPin →
      (pwm_status B pin m).result = some false →
      (getValidPinMode B pin m).result = some false) := by
  rw [getValidPinMode_run B m pin d s hd hs]
  constructor
  · intro hset
    simp [land_0xF, htag, (land_ne_zero_iff _ _).mpr hset]
  · intro hclear _
    have hz : m.PIO_OSR d.pPort &&& d.ulPin = 0 := by
      by_contra hne
      exact hclear ((land_ne_zero_iff _ _).mp hne)
    simp [land_0xF, htag, hz, PIN_STATUS_DIGITAL_OUTPUT, PIN_STATUS_PWM]

/-- Witness for C4: pin 20 of the Due, never configured through the status
array, is an output when bit 20 of `PIO_OSR` is set and an input when the
register reads zero. -/
theorem getValidPinMode_unset_witness :
    (getValidPinMode due 20 (sampleMachine (List.replicate 79 0) (2 ^ 20))).result = some true ∧
    (getValidPinMode due 20 (sampleMachine (List.replicate 79 0) 0)).result = some false :=
  ⟨(getValidPinMode_unset due (sampleMachine (List.replicate 79 0) (2 ^ 20)) 20
      (sampleDescription 20) 0 (by rfl) (by rfl) (by rfl)).1 ⟨20, by decide, by decide⟩,
   (getValidPinMode_unset due (sampleMachine (List.replicate 79 0) 0) 20
      (sampleDescription 20) 0 (by rfl) (by rfl) (by rfl)).2
      (by rintro ⟨i, _, hi⟩; simp [sampleMachine] at hi) (by rfl)⟩

/-! ## Index predicates -/

/-- C5: when `NUMBER_PINS_TOTAL` is a value of `pin_t`, `isValidPin(P)` is true
exactly for the integers `P` with `0 <= P < NUMBER_PINS_TOTAL`: it is false
for every negative `P` and for every `P >= NUMBER_PINS_TOTAL`. -/
theorem isValidPin_iff (B : Board) (hbits : 0 < B.pinBits)
    (hfit : fitsIn B.pinBits (NUMBER_PINS_TOTAL B)) (P : Int) :
    (isValidPin B P = true ↔ 0 ≤ P ∧ P < NUMBER_PINS_TOTAL B) ∧
    (P < 0 → isValidPin B P = false) ∧
    ((NUMBER_PINS_TOTAL B : Int) ≤ P → isValidPin B P = false) := by
  have hcast : pin_t B (NUMBER_PINS_TOTAL B) = NUMBER_PINS_TOTAL B :=
    wrapSigned_of_fitsIn _ _ hbits hfit
  have hiff : isValidPin B P = true ↔ 0 ≤ P ∧ P < NUMBER_PINS_TOTAL B := by
    simp [isValidPin, hcast]
  refine ⟨hiff, ?_, ?_⟩
  · intro hneg
    rw [← Bool.not_eq_true, hiff]
    omega
  · intro hge
    rw [← Bool.not_eq_true, hiff]
    omega

/-- Witness for C5: the Due (79 pins, `pin_t` of 8 bits) at index 78. -/
theorem isValidPin_iff_witness :
    (isValidPin due 78 = true ↔ (0 : Int) ≤ 78 ∧ (78 : Int) < NUMBER_PINS_TOTAL due) ∧
    ((78 : Int) < 0 → isValidPin due 78 = false) ∧
    ((NUMBER_PINS_TOTAL due : Int) ≤ 78 → isValidPin due 78 = false) :=
  isValidPin_iff due (by decide) (by decide) 78

/-- C6: when the pin indices of the first and of the last analog input are
values of `pin_t`, `isAnalogPin(P)` is true exactly when
`analogInputToDigitalPin(0) <= P <= analogInputToDigitalPin(NUM_ANALOG_INPUTS - 1)`;
both ends of a non-empty range are classified analog. -/
theorem isAnalogPin_iff (B : Board) (hbits : 0 < B.pinBits)
    (hfirst : fitsIn B.pinBits (B.analogInputToDigitalPin 0))
    (hlast : fitsIn B.pinBits (B.analogInputToDigitalPin (B.NUM_ANALOG_INPUTS - 1)))
    (P : Int) :
    (isAnalogPin B P = true ↔
      B.analogInputToDigitalPin 0 ≤ P ∧
        P ≤ B.analogInputToDigitalPin (B.NUM_ANALOG_INPUTS - 1)) ∧
    (B.analogInputToDigitalPin 0 ≤ B.analogInputToDigitalPin (B.NUM_ANALOG_INPUTS - 1) →
      isAnalogPin B (B.analogInputToDigitalPin 0) = true ∧
      isAnalogPin B (B.analogInputToDigitalPin (B.NUM_ANALOG_INPUTS - 1)) = true) := by
  have h0 := wrapSigned_of_fitsIn _ _ hbits hfirst
  have h1 := wrapSigned_of_fitsIn _ _ hbits hlast
  constructor
  · simp [isAnalogPin, WITHIN, pin_t, h0, h1]
  · intro hle
    simp [isAnalogPin, WITHIN, pin_t, h0, h1, hle]

/-- Witness for C6: the Due, whose analog inputs are pins 54..65, at pin 65. -/
theorem isAnalogPin_iff_witness :
    (isAnalogPin due 65 = true ↔
      due.analogInputToDigitalPin 0 ≤ 65 ∧
        65 ≤ due.analogInputToDigitalPin (due.NUM_ANALOG_INPUTS - 1)) ∧
    (due.analogInputToDigitalPin 0 ≤ due.analogInputToDigitalPin (due.NUM_ANALOG_INPUTS - 1) →
      isAnalogPin due (due.analogInputToDigitalPin 0) = true ∧
      isAnalogPin due (due.analogInputToDigitalPin (due.NUM_ANALOG_INPUTS - 1)) = true) :=
  isAnalogPin_iff due (by decide) (by decide) (by decide) 65

/-- C7: `digitalPinToAnalogIndex(P)` equals `P - analogInputToDigitalPin(0)`
for every `P` for which that difference is an `int`; it is 0 at the pin of the
first analog input and, when the last analog input sits `NUM_ANALOG_INPUTS - 1`
pins after the first, it is `NUM_ANALOG_INPUTS - 1` at the pin of the last. -/
theorem digitalPinToAnalogIndex_eq (B : Board)
    (hcontig : B.analogInputToDigitalPin (B.NUM_ANALOG_INPUTS - 1)
      = B.analogInputToDigitalPin 0 + (B.NUM_ANALOG_INPUTS - 1))
    (hN : fitsIn 32 (B.NUM_ANALOG_INPUTS - 1)) :
    (∀ P : Int, fitsIn 32 (P - B.analogInputToDigitalPin 0) →
      digitalPinToAnalogIndex B P = P - B.analogInputToDigitalPin 0) ∧
    digitalPinToAnalogIndex B (B.analogInputToDigitalPin 0) = 0 ∧
    digitalPinToAnalogIndex B (B.analogInputToDigitalPin (B.NUM_ANALOG_INPUTS - 1))
      = B.NUM_ANALOG_INPUTS - 1 := by
  refine ⟨?_, ?_, ?_⟩
  · intro P hP
    exact wrapSigned_of_fitsIn 32 _ (by norm_num) hP
  · unfold digitalPinToAnalogIndex toInt32
    rw [sub_self]
    exact wrapSigned_of_fitsIn 32 0 (by norm_num) (by decide)
  · unfold digitalPinToAnalogIndex toInt32
    rw [hcontig, add_sub_cancel_left]
    exact wrapSigned_of_fitsIn 32 _ (by norm_num) hN

/-- Witness for C7: on the Due pin 60 is analog input 6, pin 54 is analog
input 0 and pin 65 is analog input 11. -/
theorem digitalPinToAnalogIndex_eq_witness :
    digitalPinToAnalogIndex due 60 = 6 ∧
    digitalPinToAnalogIndex due 54 = 0 ∧
    digitalPinToAnalogIndex due 65 = 11 :=
  ⟨(digitalPinToAnalogIndex_eq due (by decide) (by decide)).1 60 (by decide),
   (digitalPinToAnalogIndex_eq due (by decide) (by decide)).2.1,
   (digitalPinToAnalogIndex_eq due (by decide) (by decide)).2.2⟩

/-- C10: when the pins of the first and last analog input are values of
`pin_t`, the last one sits `NUM_ANALOG_INPUTS - 1` pins after the first, and
`P - analogInputToDigitalPin(0)` is an `int`: if `isAnalogPin(P)` is false then
`digitalPinToAnalogIndex(P)` is negative or exceeds `NUM_ANALOG_INPUTS - 1`,
and if `isAnalogPin(P)` is true it lies in `[0, NUM_ANALOG_INPUTS - 1]`. -/
theorem digitalPinToAnalogIndex_range (B : Board) (hbits : 0 < B.pinBits)
    (hfirst : fitsIn B.pinBits (B.analogInputToDigitalPin 0))
    (hlast : fitsIn B.pinBits (B.analogInputToDigitalPin (B.NUM_ANALOG_INPUTS - 1)))
    (hcontig : B.analogInputToDigitalPin (B.NUM_ANALOG_INPUTS - 1)
      = B.analogInputToDigitalPin 0 + (B.NUM_ANALOG_INPUTS - 1))
    (P : Int) (hP : fitsIn 32 (P - B.analogInputToDigitalPin 0)) :
    (isAnalogPin B P = false →
      digitalPinToAnalogIndex B P < 0 ∨
        B.NUM_ANALOG_INPUTS - 1 < digitalPinToAnalogIndex B P) ∧
    (isAnalogPin B P = true →
      0 ≤ digitalPinToAnalogIndex B P ∧
        digitalPinToAnalogIndex B P ≤ B.NUM_ANALOG_INPUTS - 1) := by
  have h0 := wrapSigned_of_fitsIn _ _ hbits hfirst
  have h1 := wrapSigned_of_fitsIn _ _ hbits hlast
  have hidx : digitalPinToAnalogIndex B P = P - B.analogInputToDigitalPin 0 :=
    wrapSigned_of_fitsIn 32 _ (by norm_num) hP
  have hiff : isAnalogPin B P = true ↔
      B.analogInputToDigitalPin 0 ≤ P ∧
        P ≤ B.analogInputToDigitalPin (B.NUM_ANALOG_INPUTS - 1) := by
    simp [isAnalogPin, WITHIN, pin_t, h0, h1]
  rw [hidx]
  constructor
  · intro hno
    rw [← Bool.not_eq_true, hiff, hcontig] at hno
    omega
  · intro hyes
    rw [hiff, hcontig] at hyes
    omega

/-- Witness for C10: on the Due pin 6 is not analog and maps to -48, pin 60 is
analog and maps into `[0, 11]`. -/
theorem digitalPinToAnalogIndex_range_witness :
    (digitalPinToAnalogIndex due 6 < 0 ∨
      due.NUM_ANALOG_INPUTS - 1 < digitalPinToAnalogIndex due 6) ∧
    (0 ≤ digitalPinToAnalogIndex due 60 ∧
      digitalPinToAnalogIndex due 60 ≤ due.NUM_ANALOG_INPUTS - 1) :=
  ⟨(digitalPinToAnalogIndex_range due (by decide) (by decide) (by decide) (by decide) 6
      (by decide)).1 (by decide),
   (digitalPinToAnalogIndex_range due (by decide) (by decide) (by decide) (by decide) 60
      (by decide)).2 (by decide)⟩

/-! ## Range of the pin index -/

/-- C8 (as stated, refuted): on the Due with tables of 79 entries, index 79 is
outside `[0, NUMBER_PINS_TOTAL)`, yet `getValidPinMode` reads
`g_APinDescription[79]`, and `pwm_status` and `printPinPWM` read
`g_pinStatus[79]`: the index is not rejected before the first read. -/
theorem reads_before_rejection_due :
    ¬ ((0 : Int) ≤ 79 ∧ (79 : Int) < NUMBER_PINS_TOTAL due) ∧
    (getValidPinMode due 79 (sampleMachine (List.replicate 79 0) 0)).reads
      = [Access.pinDescription 79] ∧
    (pwm_status due 79 (sampleMachine (List.replicate 79 0) 0)).reads
      = [Access.pinStatus 79] ∧
    (printPinPWM due 79 (sampleMachine (List.replicate 79 0) 0)).reads
      = [Access.pinStatus 79] ∧
    Access.inBounds (sampleMachine (List.replicate 79 0) 0) (Access.pinDescription 79) = false ∧
    Access.inBounds (sampleMachine (List.replicate 79 0) 0) (Access.pinStatus 79) = false := by
  refine ⟨by decide, by rfl, by rfl, by rfl, by rfl, by rfl⟩

/-- C8 (amended): for a pin index that is a value of `pin_t` (the parameter
type of `getValidPinMode`) and of `int32_t` (that of `printPinPWM`), so that
it reaches the function bodies unchanged, and that lies outside
`[0, NUMBER_PINS_TOTAL)`, with both tables holding `NUMBER_PINS_TOTAL`
entries: `isValidPin` is false, and the functions themselves do not check the
index: the first and only step of `getValidPinMode` is the read of
`g_APinDescription[pin]`, that of `pwm_status` and `printPinPWM` the read of
`g_pinStatus[pin]`; the read is out of bounds and no result is defined.
Rejecting the index is left to the caller. -/
theorem reads_outside_range (B : Board) (m : Machine) (pin : Int)
    (hbits : 0 < B.pinBits) (hpin : fitsIn B.pinBits pin) (hint : fitsIn 32 pin)
    (hsz : m.sized B) (hout : pin < 0 ∨ (NUMBER_PINS_TOTAL B : Int) ≤ pin) :
    (pin_t B pin = pin ∧ toInt32 pin = pin) ∧
    isValidPin B pin = false ∧
    ((getValidPinMode B pin m).reads = [Access.pinDescription pin] ∧
      (getValidPinMode B pin m).result = none) ∧
    ((pwm_status B pin m).reads = [Access.pinStatus pin] ∧
      (pwm_status B pin m).result = none) ∧
    ((printPinPWM B pin m).reads = [Access.pinStatus pin] ∧
      (printPinPWM B pin m).result = none) ∧
    Access.inBounds m (Access.pinDescription pin) = false ∧
    Access.inBounds m (Access.pinStatus pin) = false := by
  obtain ⟨hlen1, hlen2⟩ := hsz
  have hd : index m.g_APinDescription pin = none :=
    index_eq_none _ _ (by rw [hlen1]; exact hout)
  have hs : index m.g_pinStatus pin = none :=
    index_eq_none _ _ (by rw [hlen2]; exact hout)
  have hwrap := wrapSigned_le B.pinBits (NUMBER_PINS_TOTAL B) (Int.natCast_nonneg _)
  refine ⟨⟨wrapSigned_of_fitsIn _ _ hbits hpin,
    wrapSigned_of_fitsIn 32 _ (by norm_num) hint⟩, ?_, ?_, ?_, ?_, ?_, ?_⟩
  · rw [← Bool.not_eq_true]
    intro hv
    simp only [isValidPin, pin_t, Bool.and_eq_true, decide_eq_true_eq] at hv
    omega
  · rw [getValidPinMode_run_outside B m pin hd]
    exact ⟨rfl, rfl⟩
  · rw [pwm_status_run_outside B m pin hs]
    exact ⟨rfl, rfl⟩
  · rw [printPinPWM_run_outside B m pin hs]
    exact ⟨rfl, rfl⟩
  · simp only [Access.inBounds, hlen1, decide_eq_false_iff_not]
    omega
  · simp only [Access.inBounds, hlen2, decide_eq_false_iff_not]
    omega

/-- Witness for C8 (amended): index -1 on the Due. -/
theorem reads_outside_range_witness :
    (pin_t due (-1) = -1 ∧ toInt32 (-1) = -1) ∧
    isValidPin due (-1) = false ∧
    ((getValidPinMode due (-1) (sampleMachine (List.replicate 79 0) 0)).reads
        = [Access.pinDescription (-1)] ∧
      (getValidPinMode due (-1) (sampleMachine (List.replicate 79 0) 0)).result = none) ∧
    ((pwm_status due (-1) (sampleMachine (List.replicate 79 0) 0)).reads
        = [Access.pinStatus (-1)] ∧
      (pwm_status due (-1) (sampleMachine (List.replicate 79 0) 0)).result = none) ∧
    ((printPinPWM due (-1) (sampleMachine (List.replicate 79 0) 0)).reads
        = [Access.pinStatus (-1)] ∧
      (printPinPWM due (-1) (sampleMachine (List.replicate 79 0) 0)).result = none) ∧
    Access.inBounds (sampleMachine (List.replicate 79 0) 0) (Access.pinDescription (-1))
      = false ∧
    Access.inBounds (sampleMachine (List.replicate 79 0) 0) (Access.pinStatus (-1)) = false :=
  reads_outside_range due (sampleMachine (List.replicate 79 0) 0) (-1)
    (by decide) (by decide) (by decide) ⟨by rfl, by rfl⟩ (Or.inl (by decide))

/-- C9: when `isValidPin(pin)` holds and both tables hold `NUMBER_PINS_TOTAL`
entries, `getValidPinMode` and `pwm_status` return a Boolean and every read
they perform is in bounds, whatever the status bytes and the registers hold. -/
theorem total_on_valid_pin (B : Board) (m : Machine) (pin : Int) (hsz : m.sized B)
    (hvalid : isValidPin B pin = true) :
    (∃ b, (getValidPinMode B pin m).result = some b) ∧
    (∀ a ∈ (getValidPinMode B pin m).reads, Access.inBounds m a = true) ∧
    (∃ b, (pwm_status B pin m).result = some b) ∧
    (∀ a ∈ (pwm_status B pin m).reads, Access.inBounds m a = true) := by
  obtain ⟨hlen1, hlen2⟩ := hsz
  have hwrap := wrapSigned_le B.pinBits (NUMBER_PINS_TOTAL B) (Int.natCast_nonneg _)
  simp only [isValidPin, pin_t, Bool.and_eq_true, decide_eq_true_eq] at hvalid
  have h0 : 0 ≤ pin := hvalid.1
  have h1 : pin < (NUMBER_PINS_TOTAL B : Int) := lt_of_lt_of_le hvalid.2 hwrap
  obtain ⟨d, hd⟩ := index_isSome m.g_APinDescription pin h0 (by rw [hlen1]; exact h1)
  obtain ⟨s, hs⟩ := index_isSome m.g_pinStatus pin h0 (by rw [hlen2]; exact h1)
  have hbd : Access.inBounds m (Access.pinDescription pin) = true := by
    simp only [Access.inBounds, hlen1, decide_eq_true_eq]
    exact ⟨h0, h1⟩
  have hbs : Access.inBounds m (Access.pinStatus pin) = true := by
    simp only [Access.inBounds, hlen2, decide_eq_true_eq]
    exact ⟨h0, h1⟩
  have hpw : ∀ a ∈ (pwm_status B pin m).reads, Access.inBounds m a = true := by
    rw [pwm_status_run B m pin d s hd hs]
    intro a ha
    simp only at ha
    split at ha
    · simp only [List.mem_cons, List.mem_singleton, List.not_mem_nil, or_false] at ha
      rcases ha with rfl | rfl
      · exact hbs
      · exact hbd
    · simp only [List.mem_singleton] at ha
      rw [ha]
      exact hbs
  refine ⟨?_, ?_, ?_, hpw⟩
  · rw [getValidPinMode_run B m pin d s hd hs]
    exact ⟨_, rfl⟩
  · rw [getValidPinMode_run B m pin d s hd hs]
    intro a ha
    simp only [List.mem_append, List.mem_cons, List.not_mem_nil, or_false] at ha
    rcases ha with (ha | ha) | ha
    · rcases ha with rfl | rfl | rfl
      · exact hbd
      · exact hbd
      · exact hbs
    · split at ha
      · simp only [List.mem_singleton] at ha
        rw [ha]
        rfl
      · exact absurd ha (List.not_mem_nil a)
    · split at ha
      · exact absurd ha (List.not_mem_nil a)
      · exact hpw a ha
  · rw [pwm_status_run B m pin d s hd hs]
    exact ⟨_, rfl⟩

/-- Witness for C9: pin 78 of the Due carrying the torn status byte 255. -/
theorem total_on_valid_pin_witness :
    (∃ b, (getValidPinMode due 78 (sampleMachine (statusWith 78 255) 0)).result = some b) ∧
    (∀ a ∈ (getValidPinMode due 78 (sampleMachine (statusWith 78 255) 0)).reads,
      Access.inBounds (sampleMachine (statusWith 78 255) 0) a = true) ∧
    (∃ b, (pwm_status due 78 (sampleMachine (statusWith 78 255) 0)).result = some b) ∧
    (∀ a ∈ (pwm_status due 78 (sampleMachine (statusWith 78 255) 0)).reads,
      Access.inBounds (sampleMachine (statusWith 78 255) 0) a = true) :=
  total_on_valid_pin due (sampleMachine (statusWith 78 255) 0) 78 ⟨by rfl, by rfl⟩ (by rfl)

/-! ## Frame lemmas -/

theorem keeps_pure {α : Type} (R : Machine → Machine → Prop) (hrefl : ∀ m, R m m) (a : α) :
    Exec.keeps R (pure a : Exec α) := fun m => hrefl m

theorem keeps_bind {α β : Type} (R : Machine → Machine → Prop)
    (htrans : ∀ a b c, R a b → R b c → R a c) (x : Exec α) (f : α → Exec β)
    (hx : Exec.keeps R x) (hf : ∀ a, Exec.keeps R (f a)) : Exec.keeps R (x >>= f) := by
  intro m
  rw [bind_def]
  unfold Exec.bind
  cases h : (x m).result with
  | none => simpa [h] using hx m
  | some a => simpa [h] using htrans _ _ _ (hx m) (hf a (x m).state)

theorem keeps_ite {α : Type} (R : Machine → Machine → Prop) (c : Prop) [Decidable c]
    (x y : Exec α) (hx : Exec.keeps R x) (hy : Exec.keeps R y) :
    Exec.keeps R (if c then x else y) := by
  split
  · exact hx
  · exact hy

theorem sameMemory_refl (m : Machine) : sameMemory m m := ⟨rfl, rfl, rfl, rfl⟩

theorem sameMemory_trans (a b c : Machine) (h1 : sameMemory a b) (h2 : sameMemory b c) :
    sameMemory a c :=
  ⟨h2.1.trans h1.1, h2.2.1.trans h1.2.1, h2.2.2.1.trans h1.2.2.1, h2.2.2.2.trans h1.2.2.2⟩

theorem keeps_of_eq {α : Type} (x : Exec α) (h : Exec.keeps Eq x) :
    Exec.keeps sameMemory x := by
  intro m
  rw [← h m]
  exact sameMemory_refl m

theorem pwm_status_keeps (B : Board) (P : Int) : Exec.keeps Eq (pwm_status B P) := by
  unfold pwm_status
  refine keeps_bind Eq (fun _ _ _ => Eq.trans) _ _ (fun m => rfl) (fun s => ?_)
  refine keeps_ite Eq _ _ _ ?_ (keeps_pure Eq (fun _ => rfl) _)
  exact keeps_bind Eq (fun _ _ _ => Eq.trans) _ _ (fun m => rfl)
    (fun d => keeps_pure Eq (fun _ => rfl) _)

theorem getValidPinMode_keeps (B : Board) (P : Int) :
    Exec.keeps Eq (getValidPinMode B P) := by
  have hjoin : ∀ (tag : Nat) (driven : Bool), Exec.keeps Eq
      (if driven = true then (pure true : Exec Bool)
        else if tag = PIN_STATUS_DIGITAL_OUTPUT then pure true else pwm_status B P) :=
    fun _ _ => keeps_ite Eq _ _ _ (keeps_pure Eq (fun _ => rfl) _)
      (keeps_ite Eq _ _ _ (keeps_pure Eq (fun _ => rfl) _) (pwm_status_keeps B P))
  unfold getValidPinMode
  refine keeps_bind Eq (fun _ _ _ => Eq.trans) _ _ (fun m => rfl) (fun d1 => ?_)
  refine keeps_bind Eq (fun _ _ _ => Eq.trans) _ _ (fun m => rfl) (fun d2 => ?_)
  refine keeps_bind Eq (fun _ _ _ => Eq.trans) _ _ (fun m => rfl) (fun s => ?_)
  dsimp only
  refine keeps_ite Eq _ _ _ ?_ ?_
  · refine keeps_bind Eq (fun _ _ _ => Eq.trans) _ _ (fun m => rfl) (fun osr => ?_)
    exact keeps_bind Eq (fun _ _ _ => Eq.trans) _ _ (keeps_pure Eq (fun _ => rfl) _)
      (fun y => hjoin _ y)
  · exact keeps_bind Eq (fun _ _ _ => Eq.trans) _ _ (keeps_pure Eq (fun _ => rfl) _)
      (fun y => hjoin _ y)

theorem printPinPWM_keeps (B : Board) (pin : Int) :
    Exec.keeps sameMemory (printPinPWM B pin) := by
  unfold printPinPWM
  refine keeps_bind sameMemory sameMemory_trans _ _ (keeps_of_eq _ (pwm_status_keeps B pin))
    (fun b => ?_)
  refine keeps_ite sameMemory _ _ _ ?_ (keeps_pure sameMemory sameMemory_refl _)
  refine keeps_bind sameMemory sameMemory_trans _ _ (fun m => sameMemory_refl m) (fun d => ?_)
  dsimp only
  refine keeps_bind sameMemory sameMemory_trans _ _ (fun m => sameMemory_refl m)
    (fun duty => ?_)
  intro m
  exact ⟨rfl, rfl, rfl, rfl⟩

theorem printPinPWM_run (B : Board) (m : Machine) (pin : Int) (d : PinDescription) (s : Nat)
    (hd : index m.g_APinDescription pin = some d) (hs : index m.g_pinStatus pin = some s) :
    (printPinPWM B pin m).state.serialOut =
      (if (pwm_status B pin m).result = some true then
        m.serialOut ++ [⟨"PWM = ", m.PWM_CDTY d.ulPWMChannel⟩]
      else m.serialOut) ∧
    (printPinPWM B pin m).reads =
      (pwm_status B pin m).reads ++
        (if (pwm_status B pin m).result = some true then
          [Access.pinDescription pin, Access.pwmCDTY d.ulPWMChannel]
        else []) ∧
    (printPinPWM B pin m).result = some () := by
  have hp := pwm_status_run B m pin d s hd hs
  by_cases h : (s &&& 0xF = PIN_STATUS_PWM
          ∧ d.ulPinAttribute &&& B.PIN_ATTR_PWM = B.PIN_ATTR_PWM)
  · simp [printPinPWM, bind_def, pure_def, Exec.bind, Exec.pure, hp, h, readPinDescription,
      readPWM_CDTY, SERIAL_ECHOPGM, hd]
  · simp [printPinPWM, bind_def, pure_def, Exec.bind, Exec.pure, hp, h]

/-! ## The Due scenario -/

/-- C11: on the Due (A0 at pin 54, analog inputs on pins 54..65), in a state
where pin 6 is PWM-capable and tagged `PIN_STATUS_PWM`, and pin 54 has tag 0
with its output-status bit clear: `pwm_status(6)` is true, `getValidPinMode(6)`
is `true` (output) and `isAnalogPin(6)` is false; the pin of A0 is 54,
`isAnalogPin(54)` is true, `digitalPinToAnalogIndex(54)` is 0 and
`getValidPinMode(54)` is `false` (input). -/
theorem due_scenario (m : Machine) (d6 dA : PinDescription) (s6 sA : Nat)
    (hd6 : index m.g_APinDescription 6 = some d6)
    (hcap : hasAttribute d6.ulPinAttribute due.PIN_ATTR_PWM)
    (hs6 : index m.g_pinStatus 6 = some s6) (htag6 : statusTag s6 = PIN_STATUS_PWM)
    (hdA : index m.g_APinDescription 54 = some dA)
    (hsA : index m.g_pinStatus 54 = some sA) (htagA : statusTag sA = 0)
    (hclear : ¬ outputEnableBitSet (m.PIO_OSR dA.pPort) dA.ulPin) :
    ((pwm_status due 6 m).result = some true ∧
      (getValidPinMode due 6 m).result = some true ∧
      isAnalogPin due 6 = false) ∧
    (due.analogInputToDigitalPin 0 = 54 ∧
      isAnalogPin due 54 = true ∧
      digitalPinToAnalogIndex due 54 = 0 ∧
      (getValidPinMode due 54 m).result = some false) := by
  have hattr := (land_eq_right_iff _ _).mpr hcap
  have hz : m.PIO_OSR dA.pPort &&& dA.ulPin = 0 := by
    by_contra hne
    exact hclear ((land_ne_zero_iff _ _).mp hne)
  refine ⟨⟨?_, ?_, by decide⟩, by decide, by decide, by decide, ?_⟩
  · rw [pwm_status_run due m 6 d6 s6 hd6 hs6]
    simp [land_0xF, htag6, hattr]
  · rw [getValidPinMode_run due m 6 d6 s6 hd6 hs6]
    simp [land_0xF, htag6, hattr]
  · rw [getValidPinMode_run due m 54 dA sA hdA hsA]
    simp [land_0xF, htagA, hz, PIN_STATUS_DIGITAL_OUTPUT, PIN_STATUS_PWM]

/-- Witness for C11: the sample Due state with pin 6 tagged PWM and every
output-status register reading zero. -/
theorem due_scenario_witness :
    ((pwm_status due 6 (sampleMachine (statusWith 6 5) 0)).result = some true ∧
      (getValidPinMode due 6 (sampleMachine (statusWith 6 5) 0)).result = some true ∧
      isAnalogPin due 6 = false) ∧
    (due.analogInputToDigitalPin 0 = 54 ∧
      isAnalogPin due 54 = true ∧
      digitalPinToAnalogIndex due 54 = 0 ∧
      (getValidPinMode due 54 (sampleMachine (statusWith 6 5) 0)).result = some false) :=
  due_scenario (sampleMachine (statusWith 6 5) 0) (sampleDescription 6) (sampleDescription 54)
    5 0 (by rfl) ((land_eq_right_iff _ _).mp (by decide)) (by rfl) (by rfl) (by rfl) (by rfl)
    (by rfl) (fun h => (land_ne_zero_iff _ _).mpr h (by rfl))

/-! ## Frame and determinism -/

/-- C12: `getValidPinMode` and `printPinPWM` are read-only: from every state
and for every pin index, the status array `g_pinStatus`, the capability table
`g_APinDescription`, the `PIO_OSR` registers and the `PWM_CDTY` registers
after the call are those before the call (`getValidPinMode` leaves the whole
state as it was; `printPinPWM` can only append to the serial output). -/
theorem read_only (B : Board) (m : Machine) (pin : Int) :
    (sameMemory m (getValidPinMode B pin m).state ∧
      (getValidPinMode B pin m).state = m) ∧
    sameMemory m (printPinPWM B pin m).state := by
  have hg : (getValidPinMode B pin m).state = m := (getValidPinMode_keeps B pin m).symm
  refine ⟨⟨?_, hg⟩, printPinPWM_keeps B pin m⟩
  rw [hg]
  exact sameMemory_refl m

/-- C13: the results of `pwm_status` and `getValidPinMode` are determined by
the pin index, the pin's capability record, its status tag and the value of
the `PIO_OSR` register of its controller: two states that agree on these give
the same results, whatever else they hold; and two calls in immediate
succession return the same Boolean.  (`isValidPin`, `isAnalogPin` and
`digitalPinToAnalogIndex` read no memory: they are functions of the pin index
and the board constants.) -/
theorem result_determined (B : Board) (m1 m2 : Machine) (pin : Int)
    (d : PinDescription) (s1 s2 : Nat)
    (hd1 : index m1.g_APinDescription pin = some d)
    (hd2 : index m2.g_APinDescription pin = some d)
    (hs1 : index m1.g_pinStatus pin = some s1) (hs2 : index m2.g_pinStatus pin = some s2)
    (htag : statusTag s1 = statusTag s2)
    (hosr : m1.PIO_OSR d.pPort = m2.PIO_OSR d.pPort) :
    ((pwm_status B pin m1).result = (pwm_status B pin m2).result ∧
      (getValidPinMode B pin m1).result = (getValidPinMode B pin m2).result) ∧
    ((∃ b, (twice (pwm_status B pin) m1).result = some (b, b)) ∧
      (∃ b, (twice (getValidPinMode B pin) m1).result = some (b, b))) := by
  refine ⟨⟨?_, ?_⟩, ?_, ?_⟩
  · rw [pwm_status_run B m1 pin d s1 hd1 hs1, pwm_status_run B m2 pin d s2 hd2 hs2]
    simp only [land_0xF, htag]
  · rw [getValidPinMode_run B m1 pin d s1 hd1 hs1, getValidPinMode_run B m2 pin d s2 hd2 hs2]
    simp only [land_0xF, htag, hosr]
  · simp only [twice, bind_def, pure_def, Exec.bind, Exec.pure,
      pwm_status_run B m1 pin d s1 hd1 hs1]
    exact ⟨_, rfl⟩
  · simp only [twice, bind_def, pure_def, Exec.bind, Exec.pure,
      getValidPinMode_run B m1 pin d s1 hd1 hs1]
    exact ⟨_, rfl⟩

/-- Witness for C13: two Due states that differ in the status of another pin,
in the high nibble of the status byte of pin 20, in the PWM registers and in
the serial output, but agree on pin 20. -/
theorem result_determined_witness :
    ((pwm_status due 20 (sampleMachine (statusWith 20 0x10) 0)).result
        = (pwm_status due 20
            { sampleMachine (statusWith 7 5) 0 with
              PWM_CDTY := fun _ => 1, serialOut := [⟨"PWM = ", 3⟩] }).result ∧
      (getValidPinMode due 20 (sampleMachine (statusWith 20 0x10) 0)).result
        = (getValidPinMode due 20
            { sampleMachine (statusWith 7 5) 0 with
              PWM_CDTY := fun _ => 1, serialOut := [⟨"PWM = ", 3⟩] }).result) ∧
    ((∃ b, (twice (pwm_status due 20) (sampleMachine (statusWith 20 0x10) 0)).result
        = some (b, b)) ∧
      (∃ b, (twice (getValidPinMode due 20) (sampleMachine (statusWith 20 0x10) 0)).result
        = some (b, b))) :=
  result_determined due (sampleMachine (statusWith 20 0x10) 0)
    { sampleMachine (statusWith 7 5) 0 with
      PWM_CDTY := fun _ => 1, serialOut := [⟨"PWM = ", 3⟩] }
    20 (sampleDescription 20) 0x10 0 (by rfl) (by rfl) (by rfl) (by rfl) (by rfl) (by rfl)

/-- C14: when the status tag of the pin is neither 0 nor
`PIN_STATUS_DIGITAL_OUTPUT` and `pwm_status` is false for the pin,
`getValidPinMode` returns `false` (input) whatever the `PIO_OSR` registers
hold, and it performs no read of a `PIO_OSR` register. -/
theorem getValidPinMode_other_tags (B : Board) (m : Machine) (pin : Int)
    (d : PinDescription) (s : Nat)
    (hd : index m.g_APinDescription pin = some d) (hs : index m.g_pinStatus pin = some s)
    (h0 : statusTag s ≠ 0) (h3 : statusTag s ≠ PIN_STATUS_DIGITAL_OUTPUT)
    (hpwm : (pwm_status B pin m).result = some false) (osr : Nat → Nat) :
    (getValidPinMode B pin { m with PIO_OSR := osr }).result = some false ∧
    ∀ port, Access.pioOSR port ∉ (getValidPinMode B pin { m with PIO_OSR := osr }).reads := by
  rw [pwm_status_run B m pin d s hd hs] at hpwm
  simp only [Option.some.injEq, decide_eq_false_iff_not, land_0xF] at hpwm
  rw [getValidPinMode_run B { m with PIO_OSR := osr } pin d s hd hs,
    pwm_status_run B { m with PIO_OSR := osr } pin d s hd hs]
  constructor
  · simp [land_0xF, h0, h3, hpwm]
  · intro port
    by_cases h5 : statusTag s = 5 <;> simp [land_0xF, h0, h3, h5, PIN_STATUS_PWM]

/-- Witness for C14: on the Due, pin 13 tagged digital input and pin 20 tagged
PWM without being PWM-capable are inputs although every output-status bit is
set. -/
theorem getValidPinMode_other_tags_witness :
    (getValidPinMode due 13
      { sampleMachine (statusWith 13 2) 0 with PIO_OSR := fun _ => 0xFFFFFFFF }).result
      = some false ∧
    (getValidPinMode due 20
      { sampleMachine (statusWith 20 5) 0 with PIO_OSR := fun _ => 0xFFFFFFFF }).result
      = some false :=
  ⟨(getValidPinMode_other_tags due (sampleMachine (statusWith 13 2) 0) 13
      (sampleDescription 13) 2 (by rfl) (by rfl) (by decide) (by decide) (by rfl)
      (fun _ => 0xFFFFFFFF)).1,
   (getValidPinMode_other_tags due (sampleMachine (statusWith 20 5) 0) 20
      (sampleDescription 20) 5 (by rfl) (by rfl) (by decide) (by decide) (by rfl)
      (fun _ => 0xFFFFFFFF)).1⟩

/-! ## PWM report -/

/-- C15: for a pin that indexes both tables, `printPinPWM` writes to the serial
port exactly when `pwm_status` holds for the pin; what it writes is then the
value of the `PWM_CDTY` register of channel `ulPWMChannel` of the pin's
capability record; for a pin without the PWM attribute it writes nothing.
The contents of the `PWM_CDTY` registers have no influence on the results of
`pwm_status` and `getValidPinMode`. -/
theorem printPinPWM_output (B : Board) (m : Machine) (pin : Int)
    (d : PinDescription) (s : Nat)
    (hd : index m.g_APinDescription pin = some d) (hs : index m.g_pinStatus pin = some s) :
    ((printPinPWM B pin m).state.serialOut ≠ m.serialOut ↔
      (pwm_status B pin m).result = some true) ∧
    ((pwm_status B pin m).result = some true →
      (printPinPWM B pin m).state.serialOut
        = m.serialOut ++ [⟨"PWM = ", m.PWM_CDTY d.ulPWMChannel⟩]) ∧
    (¬ hasAttribute d.ulPinAttribute B.PIN_ATTR_PWM →
      (printPinPWM B pin m).state.serialOut = m.serialOut) ∧
    (∀ duty : Nat → Nat,
      (pwm_status B pin { m with PWM_CDTY := duty }).result = (pwm_status B pin m).result ∧
      (getValidPinMode B pin { m with PWM_CDTY := duty }).result
        = (getValidPinMode B pin m).result) := by
  have hout := (printPinPWM_run B m pin d s hd hs).1
  refine ⟨?_, ?_, ?_, ?_⟩
  · rw [hout]
    by_cases hp : (pwm_status B pin m).result = some true <;> simp [hp]
  · intro hp
    rw [hout, if_pos hp]
  · intro hno
    have hp : (pwm_status B pin m).result ≠ some true := by
      rw [pwm_status_run B m pin d s hd hs]
      simp [land_eq_right_iff, hno]
    rw [hout, if_neg hp]
  · intro duty
    constructor
    · rw [pwm_status_run B { m with PWM_CDTY := duty } pin d s hd hs,
        pwm_status_run B m pin d s hd hs]
    · rw [getValidPinMode_run B { m with PWM_CDTY := duty } pin d s hd hs,
        getValidPinMode_run B m pin d s hd hs]

/-- Witness for C15: pin 6 of the Due, tagged PWM, reports the duty register
of its channel 7 (107 in the sample state). -/
theorem printPinPWM_output_witness :
    (printPinPWM due 6 (sampleMachine (statusWith 6 5) 0)).state.serialOut
      = [⟨"PWM = ", 107⟩] :=
  Eq.trans
    ((printPinPWM_output due (sampleMachine (statusWith 6 5) 0) 6 (sampleDescription 6) 5
      (by rfl) (by rfl)).2.1 (by rfl))
    (by rfl)

/-! ## Dependence on the status array and on the register -/

/-- C16: the result of `getValidPinMode` depends on both the status array and
`PIO_OSR`: there are two states that differ only in the `PIO_OSR` registers,
with status tag 0 for the pin, on which the results differ; and two states
that differ only in the status byte of the pin (`PIN_STATUS_DIGITAL_OUTPUT`
against `PIN_STATUS_DIGITAL_INPUT`), with the pin's `PIO_OSR` bit clear, on
which the results differ. -/
theorem depends_on_status_and_register :
    (∃ (m : Machine) (pin : Int) (s : Nat) (osr1 osr2 : Nat → Nat),
      index m.g_pinStatus pin = some s ∧ statusTag s = 0 ∧
      (getValidPinMode due pin { m with PIO_OSR := osr1 }).result = some false ∧
      (getValidPinMode due pin { m with PIO_OSR := osr2 }).result = some true) ∧
    (∃ (m : Machine) (pin : Nat) (d : PinDescription),
      index m.g_APinDescription pin = some d ∧
      ¬ outputEnableBitSet (m.PIO_OSR d.pPort) d.ulPin ∧
      (getValidPinMode due pin
        { m with g_pinStatus := m.g_pinStatus.set pin PIN_STATUS_DIGITAL_OUTPUT }).result
        = some true ∧
      (getValidPinMode due pin
        { m with g_pinStatus := m.g_pinStatus.set pin PIN_STATUS_DIGITAL_INPUT }).result
        = some false) := by
  constructor
  · exact ⟨sampleMachine (List.replicate 79 0) 0, 20, 0, fun _ => 0, fun _ => 2 ^ 20,
      by rfl, by rfl, by rfl, by rfl⟩
  · exact ⟨sampleMachine (List.replicate 79 0) 0, 13, sampleDescription 13,
      by rfl, fun h => (land_ne_zero_iff _ _).mpr h (by rfl), by rfl, by rfl⟩

/-! ## Low four bits of the status byte -/

/-- C17: `pwm_status` and `getValidPinMode` depend on the status byte of the
pin only through its low four bits: replacing the status array by one whose
byte for the pin has the same value of `& 0xF` changes neither result. -/
theorem low_nibble_only (B : Board) (m : Machine) (pin : Int)
    (d : PinDescription) (s1 s2 : Nat) (status2 : List Nat)
    (hd : index m.g_APinDescription pin = some d)
    (hs1 : index m.g_pinStatus pin = some s1) (hs2 : index status2 pin = some s2)
    (hnibble : s1 &&& 0xF = s2 &&& 0xF) :
    (pwm_status B pin { m with g_pinStatus := status2 }).result
      = (pwm_status B pin m).result ∧
    (getValidPinMode B pin { m with g_pinStatus := status2 }).result
      = (getValidPinMode B pin m).result := by
  constructor
  · rw [pwm_status_run B { m with g_pinStatus := status2 } pin d s2 hd hs2,
      pwm_status_run B m pin d s1 hd hs1, hnibble]
  · rw [getValidPinMode_run B { m with g_pinStatus := status2 } pin d s2 hd hs2,
      getValidPinMode_run B m pin d s1 hd hs1, hnibble]

/-- Witness for C17: on pin 20 of the Due with its output-status bit set, the
status byte 0x10 gives the result of byte 0 (unset: output, following the
register); with the bit clear, byte 0x13 gives the result of byte 3 (digital
output). -/
theorem low_nibble_only_witness :
    ((getValidPinMode due 20
        { sampleMachine (statusWith 20 0) (2 ^ 20) with
          g_pinStatus := statusWith 20 0x10 }).result
      = (getValidPinMode due 20 (sampleMachine (statusWith 20 0) (2 ^ 20))).result ∧
     (getValidPinMode due 20 (sampleMachine (statusWith 20 0) (2 ^ 20))).result = some true) ∧
    ((getValidPinMode due 20
        { sampleMachine (statusWith 20 3) 0 with g_pinStatus := statusWith 20 0x13 }).result
      = (getValidPinMode due 20 (sampleMachine (statusWith 20 3) 0)).result ∧
     (getValidPinMode due 20 (sampleMachine (statusWith 20 3) 0)).result = some true) :=
  ⟨⟨(low_nibble_only due (sampleMachine (statusWith 20 0) (2 ^ 20)) 20 (sampleDescription 20)
      0 0x10 (statusWith 20 0x10) (by rfl) (by rfl) (by rfl) (by rfl)).2, by rfl⟩,
   ⟨(low_nibble_only due (sampleMachine (statusWith 20 3) 0) 20 (sampleDescription 20)
      3 0x13 (statusWith 20 0x13) (by rfl) (by rfl) (by rfl) (by rfl)).2, by rfl⟩⟩

/-! ## Analog block -/

/-- C18: on a board with at least one analog input whose analog block is
contiguous (`analogInputToDigitalPin(k) = analogInputToDigitalPin(0) + k` for
`0 <= k < NUM_ANALOG_INPUTS`), with the first and last analog pins values of
`pin_t` and `NUM_ANALOG_INPUTS - 1` an `int`: `digitalPinToAnalogIndex` and
`analogInputToDigitalPin` are inverse to each other on the analog block. -/
theorem analog_index_inverse (B : Board) (hbits : 0 < B.pinBits)
    (hfirst : fitsIn B.pinBits (B.analogInputToDigitalPin 0))
    (hlast : fitsIn B.pinBits (B.analogInputToDigitalPin (B.NUM_ANALOG_INPUTS - 1)))
    (hpos : 0 < B.NUM_ANALOG_INPUTS) (hN : fitsIn 32 (B.NUM_ANALOG_INPUTS - 1))
    (hcontig : ∀ k : Int, 0 ≤ k → k < B.NUM_ANALOG_INPUTS →
      B.analogInputToDigitalPin k = B.analogInputToDigitalPin 0 + k) :
    (∀ k : Int, 0 ≤ k → k < B.NUM_ANALOG_INPUTS →
      digitalPinToAnalogIndex B (B.analogInputToDigitalPin k) = k) ∧
    (∀ P : Int, isAnalogPin B P = true →
      B.analogInputToDigitalPin (digitalPinToAnalogIndex B P) = P) := by
  have hsmall : ∀ k : Int, 0 ≤ k → k < B.NUM_ANALOG_INPUTS → fitsIn 32 k := by
    intro k h0 h1
    obtain ⟨_, hup⟩ := hN
    constructor
    · have hp : (0 : Int) ≤ 2 ^ (32 - 1) := by positivity
      omega
    · omega
  have hidx : ∀ k : Int, 0 ≤ k → k < B.NUM_ANALOG_INPUTS →
      digitalPinToAnalogIndex B (B.analogInputToDigitalPin 0 + k) = k := by
    intro k h0 h1
    unfold digitalPinToAnalogIndex toInt32
    rw [add_sub_cancel_left]
    exact wrapSigned_of_fitsIn 32 k (by norm_num) (hsmall k h0 h1)
  constructor
  · intro k h0 h1
    rw [hcontig k h0 h1]
    exact hidx k h0 h1
  · intro P hP
    have hw0 := wrapSigned_of_fitsIn _ _ hbits hfirst
    have hw1 := wrapSigned_of_fitsIn _ _ hbits hlast
    have hend := hcontig (B.NUM_ANALOG_INPUTS - 1) (by omega) (by omega)
    simp only [isAnalogPin, WITHIN, pin_t, hw0, hw1, Bool.and_eq_true, decide_eq_true_eq,
      ge_iff_le] at hP
    obtain ⟨hlo, hhi⟩ := hP
    rw [hend] at hhi
    have hk0 : 0 ≤ P - B.analogInputToDigitalPin 0 := by omega
    have hk1 : P - B.analogInputToDigitalPin 0 < B.NUM_ANALOG_INPUTS := by omega
    have hPeq : P = B.analogInputToDigitalPin 0 + (P - B.analogInputToDigitalPin 0) := by
      omega
    have hval := hidx _ hk0 hk1
    rw [← hPeq] at hval
    rw [hval, hcontig _ hk0 hk1]
    omega

/-- Witness for C18: on the Due analog input 7 is pin 61, which maps back to
7, and pin 60 maps to analog input 6, which is pin 60. -/
theorem analog_index_inverse_witness :
    digitalPinToAnalogIndex due (due.analogInputToDigitalPin 7) = 7 ∧
    due.analogInputToDigitalPin (digitalPinToAnalogIndex due 60) = 60 :=
  ⟨(analog_index_inverse due (by decide) (by decide) (by decide) (by decide) (by decide)
      (by intro k h0 h1; have h2 : k < 12 := h1; simp [due, h0, h2]; omega)).1 7 (by decide) (by decide),
   (analog_index_inverse due (by decide) (by decide) (by decide) (by decide) (by decide)
      (by intro k h0 h1; have h2 : k < 12 := h1; simp [due, h0, h2]; omega)).2 60 (by decide)⟩

end PinsDebug
